import Mathlib

/-!
Verification of the multi-reviewer scoring and reconciliation engine of the
automatique repository (hooks/iter_eval.py and hooks/ci_comment.py).

Python strings are modelled as List Char (and, for the prompt builder, as
Lean String, which in this toolchain is a wrapper around List Char).
Python floats are modelled as rationals; round(x, 2) is modelled as
rounding to the nearest multiple of 1/100 (the Lean round function rounds
half up while Python rounds half to even on binary floats; no statement
below depends on the direction taken at an exact tie).
Python dicts holding dimension scores are modelled either as lookup
functions (ScoreRecord, Reconciled) or as association lists (RecordJ)
where the code iterates over items. The json.loads decoder of the Python
standard library is external to the repository and is abstracted as a
decode parameter.
-/

/-! ## Text model: Python str.split based fence extraction (iter_eval.parse_scores) -/

/-- The backtick character, written via its code point. -/
def btick : Char := Char.ofNat 96

/-- Does the second list start with the first (Python startswith)? -/
def leadsWith : List Char → List Char → Bool
  | [], _ => true
  | _ :: _, [] => false
  | a :: sep, c :: s => (a == c) && leadsWith sep s

/-- First occurrence of a non-empty separator: returns the part before it and
the part after it, or none when the separator does not occur.
This models the splitting that Python str.split performs at the first
occurrence of the separator. -/
def findSplit (sep : List Char) : List Char → Option (List Char × List Char)
  | [] => none
  | c :: s =>
    if leadsWith sep (c :: s) then some ([], (c :: s).drop sep.length)
    else
      match findSplit sep s with
      | some (b, a) => some (c :: b, a)
      | none => none

/-- Python t.split(sep)[0]: the part before the first occurrence of sep
(the whole text when sep does not occur). -/
def beforeFirst (sep t : List Char) : List Char :=
  match findSplit sep t with
  | some (b, _) => b
  | none => t

/-- Everything after the first occurrence of sep (the whole text when sep
does not occur; only used under an occurrence check). -/
def afterFirst (sep t : List Char) : List Char :=
  match findSplit sep t with
  | some (_, a) => a
  | none => t

/-- Python t.split(sep)[1] when sep occurs in t: the segment between the
first occurrence and the following occurrence or end. -/
def seg1 (sep t : List Char) : List Char := beforeFirst sep (afterFirst sep t)

/-- Python sep in t, for a non-empty separator. -/
def containsSub (sep t : List Char) : Bool := (findSplit sep t).isSome

/-- The three-backtick fence. -/
def fence : List Char := [btick, btick, btick]

/-- The labeled fence, three backticks followed by the json label. -/
def fjson : List Char := [btick, btick, btick, 'j', 's', 'o', 'n']

/-- iter_eval.parse_scores, extraction part:
if the labeled fence occurs, take text.split on the labeled fence, index 1,
then split on the plain fence, index 0; otherwise if a plain fence occurs,
the same with the plain fence; otherwise the whole text. -/
def extract (text : List Char) : List Char :=
  if containsSub fjson text then beforeFirst fence (seg1 fjson text)
  else if containsSub fence text then beforeFirst fence (seg1 fence text)
  else text

/-- The characters removed by Python str.strip with no argument. -/
def pySpace (c : Char) : Bool :=
  c == ' ' || c == '\t' || c == '\n' || c == '\x0b' || c == '\x0c' || c == '\r'

/-- Python str.strip: drop whitespace from both ends. -/
def pyStrip (l : List Char) : List Char :=
  ((l.dropWhile pySpace).reverse.dropWhile pySpace).reverse

/-! ## Decoded reviewer records -/

/-- A dimension entry as the reconciler requires it: the score key is
present and numeric (reconcile reads s with a mandatory score and an
optional reason via s.get). -/
structure DimEntry where
  score : ℚ
  reason : Option String
deriving DecidableEq

/-- One reviewer score record as consumed by reconcile: a dict from
dimension names to dimension entries (modelled as a lookup function, as
reconcile only tests membership and indexes) plus the optional verdict
key. -/
structure ScoreRecord where
  get : String → Option DimEntry
  verdict : Option String

/-- A reconciled dimension entry: averaged score and joined reason. -/
structure OutEntry where
  score : ℚ
  reason : String
deriving DecidableEq

/-- The dict built by reconcile: dimension entries plus the verdict key. -/
structure Reconciled where
  get : String → Option OutEntry
  verdict : Option String

/-- A dimension entry of a freshly decoded JSON object, where both the
score and the reason keys may be absent (as the defaulting loop of
ci_comment handles). -/
structure JEntry where
  score : Option ℚ
  reason : Option String
deriving DecidableEq

/-- A decoded JSON object from a reviewer response: dimension-like keys
mapping to objects, as an association list because run_eval iterates over
items, plus the optional top-level verdict string. -/
structure RecordJ where
  entries : List (String × JEntry)
  verdict : Option String
deriving DecidableEq

/-- iter_eval.parse_scores: extract the fenced block, strip it, and decode
it. The decode parameter abstracts json.loads of the Python standard
library; a decoding failure is an error, which parse_scores propagates to
its caller unhandled. -/
def parse_scores (decode : List Char → Except String RecordJ) (raw : List Char) :
    Except String RecordJ :=
  decode (pyStrip (extract raw))

/-! ## Reconciliation (iter_eval.reconcile) -/

/-- The fixed dimension list dims of iter_eval.reconcile, also the key list
of the defaulting loop in ci_comment. -/
def dims : List String :=
  ["requirements_met", "acceptance_criteria", "no_regressions", "code_quality",
   "completeness", "overall"]

/-- Python round(x, 2): the integer nearest to 100 x, divided by 100. -/
def round2 (q : ℚ) : ℚ := (round (100 * q) : ℚ) / 100

/-- Arithmetic mean of a list of rationals (sum divided by length). -/
def listMean (l : List ℚ) : ℚ := l.sum / l.length

/-- scores_for_dim in reconcile: the entries of the input records that
contain the dimension, in input order. -/
def scoresFor (evals : List ScoreRecord) (dim : String) : List DimEntry :=
  evals.filterMap (fun e => e.get dim)

/-- The joined reason string of reconcile: each reason, or N/A when the
reason key is absent, joined with a pipe separator. -/
def joinReasons (l : List DimEntry) : String :=
  String.intercalate " | " (l.map (fun s => s.reason.getD "N/A"))

/-- The entry reconcile stores for one dimension: absent when no record
contains the dimension, otherwise the rounded mean and the joined
reasons. -/
def reconcileDim (evals : List ScoreRecord) (dim : String) : Option OutEntry :=
  let sl := scoresFor evals dim
  if sl.isEmpty then none
  else some ⟨round2 (listMean (sl.map DimEntry.score)), joinReasons sl⟩

/-- verdict_order.get(v, 1): FAIL 0, NEEDS_WORK 1, PASS 2, anything else 1. -/
def verdictOrder (v : String) : Nat :=
  if v = "FAIL" then 0 else if v = "NEEDS_WORK" then 1 else if v = "PASS" then 2 else 1

/-- One step of Python min with a key function: keep the earlier element
unless the later one is strictly smaller. -/
def vmin (a w : String) : String := if verdictOrder w < verdictOrder a then w else a

/-- Python min(verdicts, key = verdict order), none on the empty list. -/
def pickMin : List String → Option String
  | [] => none
  | v :: rest => some (rest.foldl vmin v)

/-- iter_eval.reconcile: empty input gives the empty dict; otherwise each
known dimension present in some record is averaged and the verdict key is
the most conservative input verdict, with absent verdicts read as
NEEDS_WORK. -/
def reconcile (evals : List ScoreRecord) : Reconciled :=
  if evals.isEmpty then ⟨fun _ => none, none⟩
  else ⟨fun dim => if dim ∈ dims then reconcileDim evals dim else none,
        pickMin (evals.map (fun e => e.verdict.getD "NEEDS_WORK"))⟩

/-- Helper to build a concrete ScoreRecord from an association list, the
way a decoded Python dict behaves under lookup. -/
def mkRec (l : List (String × DimEntry)) (v : Option String) : ScoreRecord :=
  ⟨fun d => l.lookup d, v⟩

/-! ## Reviewer invocation (iter_eval.run_eval and the model loop) -/

/-- What run_eval logs to the child trace span: either the decoded scores
object or an error description. -/
inductive SpanOutput
  | scores (r : RecordJ)
  | error (msg : String)
deriving DecidableEq

/-- One child trace span as run_eval emits it: the span name carrying the
model identifier, the logged output, and the logged numeric scores. -/
structure ChildLog where
  name : String
  output : SpanOutput
  spanScores : List (String × ℚ)
deriving DecidableEq

/-- The per-dimension scores run_eval logs on success: every key of the
decoded object whose value is an object containing a score key. -/
def spanScoresOf (r : RecordJ) : List (String × ℚ) :=
  r.entries.filterMap (fun kv => kv.2.score.map (fun s => (kv.1, s)))

/-- iter_eval.run_eval as a function of the reviewer call outcome: the
transport layer either fails with an error or returns raw text, which
parse_scores then decodes. Any failure is caught: the child span logs the
error with an overall score of 0 and the function returns the empty dict.
On success the span logs the scores and the decoded record is returned. -/
def run_eval (decode : List Char → Except String RecordJ) (model : String)
    (response : Except String (List Char)) : ChildLog × RecordJ :=
  match response with
  | Except.error e => (⟨"eval-" ++ model, SpanOutput.error e, [("overall", 0)]⟩, ⟨[], none⟩)
  | Except.ok raw =>
    match parse_scores decode raw with
    | Except.error e => (⟨"eval-" ++ model, SpanOutput.error e, [("overall", 0)]⟩, ⟨[], none⟩)
    | Except.ok scores => (⟨"eval-" ++ model, SpanOutput.scores scores, spanScoresOf scores⟩, scores)

/-- Python truthiness of the dict run_eval returns: the empty dict is
falsy. -/
def truthy (r : RecordJ) : Bool := !(r.entries.isEmpty && r.verdict.isNone)

/-- The model loop of iter_eval: run every model in order, collect one
child span per model, and append only truthy results to model_results. -/
def runAllModels (decode : List Char → Except String RecordJ) :
    List (String × Except String (List Char)) → List ChildLog × List RecordJ
  | [] => ([], [])
  | (m, resp) :: rest =>
    let step := run_eval decode m resp
    let acc := runAllModels decode rest
    (step.1 :: acc.1, if truthy step.2 then step.2 :: acc.2 else acc.2)

/-! ## ci_comment: post-decode defaulting and verdict -/

/-- The score the defaulting loop of ci_comment stores for one key:
scores_json.get(key, empty).get(score key, 0.0). -/
def ciScore (r : RecordJ) (k : String) : ℚ :=
  match r.entries.lookup k with
  | none => 0
  | some en => en.score.getD 0

/-- The reason the defaulting loop of ci_comment stores for one key. -/
def ciReason (r : RecordJ) (k : String) : String :=
  match r.entries.lookup k with
  | none => ""
  | some en => en.reason.getD ""

/-- The scores dict ci_comment builds over the six fixed keys. -/
def ciScores (r : RecordJ) : List (String × ℚ) :=
  dims.map (fun k => (k, ciScore r k))

/-- The reasons dict ci_comment builds over the six fixed keys. -/
def ciReasons (r : RecordJ) : List (String × String) :=
  dims.map (fun k => (k, ciReason r k))

/-- ci_comment line 171: scores_json.get(verdict key, UNKNOWN). -/
def ciVerdict (r : RecordJ) : String := r.verdict.getD "UNKNOWN"

/-! ## Evaluation request builder (iter_eval lines 61 to 123, ci_comment lines 53 to 61) -/

/-- Python s[:n] on strings. -/
def pyTake (s : String) (n : Nat) : String := String.mk (s.data.take n)

/-- Python s[-n:] on strings: the last n characters, the whole string when
it is shorter. -/
def pyTakeLast (s : String) (n : Nat) : String :=
  String.mk (s.data.drop (s.data.length - n))

/-- iter_eval diff_stat: the git diff stat output truncated to its first
2000 characters. -/
def diff_stat (raw : String) : String := pyTake raw 2000

/-- iter_eval diff_content: the git diff output truncated to its first
12000 characters. -/
def diff_content (raw : String) : String := pyTake raw 12000

/-- iter_eval check_log: empty when the per-iteration check file is absent,
otherwise the last 3000 characters of its content. -/
def check_log : Option String → String
  | none => ""
  | some s => pyTakeLast s 3000

/-- ci_comment diff_stat: the PR diff stat truncated to 2000 characters. -/
def ci_diff_stat (raw : String) : String := pyTake raw 2000

/-- ci_comment diff_content: the PR diff truncated to 15000 characters. -/
def ci_diff_content (raw : String) : String := pyTake raw 15000

/-- The diff portion embedded in the ci_comment scoring prompt:
diff_content[:10000]. -/
def ci_prompt_diff (raw : String) : String := pyTake (ci_diff_content raw) 10000

/-- The scoring prompt text of iter_eval up to and including the line
before the diff stat interpolation. -/
def promptPre (iter : Nat) (task : String) : String :=
  "Evaluate this in-progress code change (iteration " ++ toString iter ++
  " of a factory loop).\n\n## Original Task\n" ++ task ++ "\n\n## Current Diff Summary\n"

/-- The scoring prompt text between the diff stat and the diff content. -/
def promptStat : String := "\n\n## Current Diff (truncated)\n```diff\n"

/-- The scoring prompt text between the diff content and the check log. -/
def promptDiff : String := "\n```\n\n## Local Check Results (this iteration)\n```\n"

/-- The scoring rubric that closes the scoring prompt, including the JSON
response template and the verbatim weighting formula. -/
def promptTail : String :=
  "\n```\n\n---\n\nScore on these dimensions (0.0-1.0 each with brief justification):\n\n1. **requirements_met**: How many task requirements are addressed?\n2. **acceptance_criteria**: How many acceptance criteria would pass now?\n3. **no_regressions**: Are \"DO NOT\" anti-patterns being respected? Look for deleted tests, suppressed warnings, gaming.\n4. **code_quality**: Well-structured, idiomatic, maintainable?\n5. **completeness**: Complete solution or partial?\n\nRespond in JSON:\n```json\n\x7b\n  \"requirements_met\": \x7b\"score\": 0.0, \"reason\": \"...\"\x7d,\n  \"acceptance_criteria\": \x7b\"score\": 0.0, \"reason\": \"...\"\x7d,\n  \"no_regressions\": \x7b\"score\": 0.0, \"reason\": \"...\"\x7d,\n  \"code_quality\": \x7b\"score\": 0.0, \"reason\": \"...\"\x7d,\n  \"completeness\": \x7b\"score\": 0.0, \"reason\": \"...\"\x7d,\n  \"overall\": \x7b\"score\": 0.0, \"reason\": \"one-line summary\"\x7d,\n  \"verdict\": \"PASS|FAIL|NEEDS_WORK\"\n\x7d\n```\n\nOverall = weighted: requirements_met 30%, acceptance_criteria 25%, no_regressions 20%, code_quality 10%, completeness 15%."

/-- The iter_eval scoring prompt, a pure function of the gathered context:
the f-string interpolating the iteration number, task text, truncated diff
stat, truncated diff, and check log (or a placeholder when the check log
is empty, per the Python or-expression). -/
def scoring_prompt (iter : Nat) (task s d l : String) : String :=
  promptPre iter task ++
    (s ++ (promptStat ++ (d ++ (promptDiff ++
      ((if l = "" then "(no check output)" else l) ++ promptTail)))))

/-! ## Helper lemmas on the text model -/

theorem leadsWith_append (sep r : List Char) : leadsWith sep (sep ++ r) = true := by
  induction sep with
  | nil => rfl
  | cons a s ih => simp [leadsWith, ih]

theorem leadsWith_btick_false (w p : List Char) (hp : btick ∉ p) :
    leadsWith (btick :: w) p = false := by
  cases p with
  | nil => rfl
  | cons c pp =>
    have hc : btick ≠ c := fun h => hp (h ▸ List.mem_cons_self c pp)
    simp [leadsWith, beq_eq_false_iff_ne.mpr hc]

theorem findSplit_none (w s : List Char) (hs : btick ∉ s) :
    findSplit (btick :: w) s = none := by
  induction s with
  | nil => rfl
  | cons c ss ih =>
    have hc : btick ≠ c := fun h => hs (h ▸ List.mem_cons_self c ss)
    have hss : btick ∉ ss := fun h => hs (List.mem_cons_of_mem c h)
    simp [findSplit, leadsWith, beq_eq_false_iff_ne.mpr hc, ih hss]

theorem findSplit_prepend (w b s : List Char) (hb : btick ∉ b) :
    findSplit (btick :: w) (b ++ s) =
      (findSplit (btick :: w) s).map (fun p => (b ++ p.1, p.2)) := by
  induction b with
  | nil =>
    simp only [List.nil_append]
    cases findSplit (btick :: w) s with
    | none => simp
    | some p => simp
  | cons c bb ih =>
    have hc : btick ≠ c := fun h => hb (h ▸ List.mem_cons_self c bb)
    have hbb : btick ∉ bb := fun h => hb (List.mem_cons_of_mem c h)
    have hlw : leadsWith (btick :: w) (c :: (bb ++ s)) = false := by
      simp [leadsWith, beq_eq_false_iff_ne.mpr hc]
    rw [List.cons_append, findSplit, hlw]
    rw [ih hbb]
    simp only [Bool.false_eq_true, if_false]
    cases findSplit (btick :: w) s with
    | none => rfl
    | some p => rfl

theorem findSplit_self (w r : List Char) :
    findSplit (btick :: w) ((btick :: w) ++ r) = some ([], r) := by
  have h := leadsWith_append (btick :: w) r
  rw [List.cons_append] at h
  rw [List.cons_append, findSplit, h]
  simp [List.drop_succ_cons, List.drop_left]

theorem findSplit_emb (w b r : List Char) (hb : btick ∉ b) :
    findSplit (btick :: w) (b ++ ((btick :: w) ++ r)) = some (b, r) := by
  rw [findSplit_prepend w b _ hb, findSplit_self]
  simp

theorem findSplit_fence_mid (w p : List Char) (hp : btick ∉ p) :
    findSplit (btick :: btick :: btick :: w) (btick :: btick :: btick :: p) =
      if leadsWith w p then some ([], p.drop w.length) else none := by
  by_cases h : leadsWith w p = true
  · have hlw : leadsWith (btick :: btick :: btick :: w) (btick :: btick :: btick :: p) = true := by
      simp [leadsWith, h]
    rw [findSplit, hlw]
    simp only [if_pos rfl, h, if_true]
    simp [List.length_cons, List.drop_succ_cons]
  · have hw : leadsWith w p = false := by
      cases hx : leadsWith w p
      · rfl
      · exact absurd hx h
    have hlw : leadsWith (btick :: btick :: btick :: w) (btick :: btick :: btick :: p) = false := by
      simp [leadsWith, hw]
    have hlw2 : leadsWith (btick :: btick :: btick :: w) (btick :: btick :: p) = false := by
      simp [leadsWith, leadsWith_btick_false w p hp]
    have hlw3 : leadsWith (btick :: btick :: btick :: w) (btick :: p) = false := by
      simp [leadsWith, leadsWith_btick_false (btick :: w) p hp]
    rw [findSplit, hlw]
    simp only [Bool.false_eq_true, if_false]
    rw [findSplit, hlw2]
    simp only [Bool.false_eq_true, if_false]
    rw [findSplit, hlw3]
    simp only [Bool.false_eq_true, if_false]
    rw [findSplit_none (btick :: btick :: w) p hp]
    simp [hw]

theorem extract_btickFree (t : List Char) (ht : btick ∉ t) : extract t = t := by
  have h1 : findSplit fjson t = none := findSplit_none _ t ht
  have h2 : findSplit fence t = none := findSplit_none _ t ht
  simp [extract, containsSub, h1, h2]

theorem extract_emb (pre body post : List Char)
    (hpre : btick ∉ pre) (hbody : btick ∉ body) (hpost : btick ∉ post) :
    extract (pre ++ fjson ++ body ++ fence ++ post) = body := by
  have hshape : pre ++ fjson ++ body ++ fence ++ post
      = pre ++ (fjson ++ (body ++ fence ++ post)) := by
    simp [List.append_assoc]
  have h1 : findSplit fjson (pre ++ fjson ++ body ++ fence ++ post)
      = some (pre, body ++ fence ++ post) := by
    rw [hshape]
    exact findSplit_emb _ pre _ hpre
  have hmid : body ++ fence ++ post = body ++ (btick :: btick :: btick :: post) := by
    simp [fence, List.append_assoc]
  have h2 : findSplit fjson (body ++ fence ++ post)
      = if leadsWith ['j', 's', 'o', 'n'] post then some (body, post.drop 4) else none := by
    rw [show fjson = btick :: btick :: btick :: ['j', 's', 'o', 'n'] from rfl]
    rw [hmid, findSplit_prepend _ body _ hbody]
    rw [findSplit_fence_mid _ post hpost]
    by_cases h : leadsWith ['j', 's', 'o', 'n'] post = true
    · simp [h]
    · have hw : leadsWith ['j', 's', 'o', 'n'] post = false := by
        cases hx : leadsWith ['j', 's', 'o', 'n'] post
        · rfl
        · exact absurd hx h
      simp [hw]
  have h3 : findSplit fence (body ++ fence ++ post) = some (body, post) := by
    show findSplit (btick :: btick :: btick :: ([] : List Char)) (body ++ fence ++ post)
        = some (body, post)
    rw [hmid, findSplit_prepend _ body _ hbody]
    rw [findSplit_fence_mid [] post hpost]
    simp [leadsWith]
  have hbody_none : findSplit fence body = none := findSplit_none _ body hbody
  simp only [extract, containsSub, h1, Option.isSome_some, if_true]
  simp only [seg1, afterFirst, h1]
  by_cases h : leadsWith ['j', 's', 'o', 'n'] post = true
  · simp only [beforeFirst, h2, if_pos h, hbody_none]
  · have hw : leadsWith ['j', 's', 'o', 'n'] post = false := by
      cases hx : leadsWith ['j', 's', 'o', 'n'] post
      · rfl
      · exact absurd hx h
    simp only [beforeFirst, h2, hw, Bool.false_eq_true, if_false, h3]

/-! ## Helper lemmas on reconciliation -/

theorem foldl_vmin_spec (xs : List String) : ∀ v : String,
    (xs.foldl vmin v = v ∨ xs.foldl vmin v ∈ xs)
    ∧ verdictOrder (xs.foldl vmin v) ≤ verdictOrder v
    ∧ ∀ w ∈ xs, verdictOrder (xs.foldl vmin v) ≤ verdictOrder w := by
  induction xs with
  | nil =>
    intro v
    exact ⟨Or.inl rfl, le_refl _, by simp⟩
  | cons x xs ih =>
    intro v
    rw [List.foldl_cons]
    obtain ⟨hmem, hle, hall⟩ := ih (vmin v x)
    have hvx_le_v : verdictOrder (vmin v x) ≤ verdictOrder v := by
      rw [vmin]; split <;> omega
    have hvx_le_x : verdictOrder (vmin v x) ≤ verdictOrder x := by
      rw [vmin]; split <;> omega
    refine ⟨?_, le_trans hle hvx_le_v, ?_⟩
    · rcases hmem with h | h
      · rw [h, vmin]
        split
        · exact Or.inr (List.mem_cons_self x xs)
        · exact Or.inl rfl
      · exact Or.inr (List.mem_cons_of_mem x h)
    · intro w hw
      rcases List.mem_cons.mp hw with rfl | hw2
      · exact le_trans hle hvx_le_x
      · exact hall w hw2

theorem pickMin_spec (l : List String) (h : l ≠ []) :
    ∃ v, pickMin l = some v ∧ v ∈ l ∧ ∀ w ∈ l, verdictOrder v ≤ verdictOrder w := by
  cases l with
  | nil => exact absurd rfl h
  | cons x xs =>
    obtain ⟨hmem, hle, hall⟩ := foldl_vmin_spec xs x
    refine ⟨xs.foldl vmin x, rfl, ?_, ?_⟩
    · rcases hmem with h2 | h2
      · rw [h2]; exact List.mem_cons_self x xs
      · exact List.mem_cons_of_mem x h2
    · intro w hw
      rcases List.mem_cons.mp hw with rfl | hw2
      · exact hle
      · exact hall w hw2

theorem reconcile_verdict_eq (evals : List ScoreRecord) (h : evals ≠ []) :
    (reconcile evals).verdict
      = pickMin (evals.map (fun e => e.verdict.getD "NEEDS_WORK")) := by
  cases evals with
  | nil => exact absurd rfl h
  | cons e rest => simp [reconcile]

theorem reconcile_get_eq (evals : List ScoreRecord) (h : evals ≠ [])
    (dim : String) (hd : dim ∈ dims) :
    (reconcile evals).get dim = reconcileDim evals dim := by
  cases evals with
  | nil => exact absurd rfl h
  | cons e rest => simp [reconcile, hd]

theorem round2_close (q : ℚ) : |round2 q - q| ≤ 1 / 200 := by
  have hd : round2 q - q = ((round (100 * q) : ℚ) - 100 * q) / 100 := by
    rw [round2]; ring
  have h2 : |(round (100 * q) : ℚ) - 100 * q| ≤ 1 / 2 := by
    rw [abs_sub_comm]; exact abs_sub_round _
  rw [hd, abs_div, abs_of_pos (by norm_num : (0 : ℚ) < 100)]
  linarith

theorem round2_int_div (k : ℤ) : round2 ((k : ℚ) / 100) = (k : ℚ) / 100 := by
  have h : (100 : ℚ) * ((k : ℚ) / 100) = (k : ℚ) := by field_simp
  rw [round2, h, round_intCast]

theorem listMean_single (x : ℚ) : listMean [x] = x := by
  simp [listMean]

/-! ## Claim theorems -/

/-- C1: for every non-empty input list whose records carry a verdict drawn
from the three valid values, the verdict of the record returned by
reconcile is an input verdict that is minimal under the total order
FAIL before NEEDS_WORK before PASS, hence the minimum of the input
verdicts under that order. -/
theorem reconcile_verdict_min (evals : List ScoreRecord) (h : evals ≠ [])
    (hv : ∀ e ∈ evals, ∃ u, e.verdict = some u
      ∧ (u = "FAIL" ∨ u = "NEEDS_WORK" ∨ u = "PASS")) :
    ∃ v, (reconcile evals).verdict = some v
      ∧ (∃ e ∈ evals, e.verdict = some v)
      ∧ ∀ e ∈ evals, ∀ u, e.verdict = some u → verdictOrder v ≤ verdictOrder u := by
  have hmap : evals.map (fun e => e.verdict.getD "NEEDS_WORK") ≠ [] := by
    cases evals with
    | nil => exact absurd rfl h
    | cons e rest => simp
  obtain ⟨v, hpick, hvmem, hall⟩ := pickMin_spec _ hmap
  refine ⟨v, by rw [reconcile_verdict_eq evals h, hpick], ?_, ?_⟩
  · obtain ⟨e, he, hev⟩ := List.mem_map.mp hvmem
    obtain ⟨u, hu, _⟩ := hv e he
    refine ⟨e, he, ?_⟩
    rw [hu] at hev ⊢
    simp only [Option.getD_some] at hev
    rw [hev]
  · intro e he u hu
    have hm : e.verdict.getD "NEEDS_WORK"
        ∈ evals.map (fun e => e.verdict.getD "NEEDS_WORK") :=
      List.mem_map_of_mem _ he
    have := hall _ hm
    rw [hu] at this
    simpa using this

/-- Witness for C1 at the concrete input list with verdicts PASS and FAIL,
together with the three concrete instances named by the claim. -/
theorem reconcile_verdict_min_witness :
    ([mkRec [] (some "PASS"), mkRec [] (some "FAIL")] ≠ [])
    ∧ (∃ v, (reconcile [mkRec [] (some "PASS"), mkRec [] (some "FAIL")]).verdict = some v
        ∧ (∃ e ∈ [mkRec [] (some "PASS"), mkRec [] (some "FAIL")], e.verdict = some v)
        ∧ ∀ e ∈ [mkRec [] (some "PASS"), mkRec [] (some "FAIL")],
            ∀ u, e.verdict = some u → verdictOrder v ≤ verdictOrder u)
    ∧ (reconcile [mkRec [] (some "PASS"), mkRec [] (some "FAIL")]).verdict = some "FAIL"
    ∧ (reconcile [mkRec [] (some "PASS"), mkRec [] (some "PASS")]).verdict = some "PASS"
    ∧ (reconcile [mkRec [] (some "NEEDS_WORK"), mkRec [] (some "PASS")]).verdict
        = some "NEEDS_WORK" := by
  refine ⟨by simp, ?_, ?_, ?_, ?_⟩
  · refine reconcile_verdict_min _ (by simp) ?_
    intro e he
    rcases List.mem_cons.mp he with rfl | he2
    · exact ⟨"PASS", rfl, by simp⟩
    · rcases List.mem_cons.mp he2 with rfl | he3
      · exact ⟨"FAIL", rfl, by simp⟩
      · simp at he3
  · simp [reconcile, pickMin, vmin, verdictOrder, mkRec]
  · simp [reconcile, pickMin, vmin, verdictOrder, mkRec]
  · simp [reconcile, pickMin, vmin, verdictOrder, mkRec]

/-- C4, corrected: in reconcile an absent verdict key defaults to
NEEDS_WORK and an unrecognized verdict string is ranked at the NEEDS_WORK
priority when the conservative minimum is taken, but its literal value is
returned unchanged, so the produced verdict is an element of the defaulted
input verdict list and minimal under the priority order; it is not
guaranteed to lie in the three-value set. -/
theorem reconcile_verdict_default (evals : List ScoreRecord) (h : evals ≠ []) :
    ∃ v, (reconcile evals).verdict = some v
      ∧ v ∈ evals.map (fun e => e.verdict.getD "NEEDS_WORK")
      ∧ ∀ w ∈ evals.map (fun e => e.verdict.getD "NEEDS_WORK"),
          verdictOrder v ≤ verdictOrder w := by
  have hmap : evals.map (fun e => e.verdict.getD "NEEDS_WORK") ≠ [] := by
    cases evals with
    | nil => exact absurd rfl h
    | cons e rest => simp
  obtain ⟨v, hpick, hvmem, hall⟩ := pickMin_spec _ hmap
  exact ⟨v, by rw [reconcile_verdict_eq evals h, hpick], hvmem, hall⟩

/-- Witness for C4 at a one-record input with no verdict key: the default
NEEDS_WORK is produced. -/
theorem reconcile_verdict_default_witness :
    ([mkRec [] none] ≠ [])
    ∧ (∃ v, (reconcile [mkRec [] none]).verdict = some v
        ∧ v ∈ [mkRec [] none].map (fun e => e.verdict.getD "NEEDS_WORK")
        ∧ ∀ w ∈ [mkRec [] none].map (fun e => e.verdict.getD "NEEDS_WORK"),
            verdictOrder v ≤ verdictOrder w)
    ∧ (reconcile [mkRec [] none]).verdict = some "NEEDS_WORK" := by
  refine ⟨by simp, reconcile_verdict_default _ (by simp), ?_⟩
  simp [reconcile, pickMin, mkRec]

/-- Counterexample to C4 as stated: a record whose verdict key holds the
unrecognized string MAYBE passes through reconcile unchanged, so the
produced verdict is outside the three-value set; and in ci_comment an
absent verdict key defaults to UNKNOWN, not to NEEDS_WORK. -/
theorem reconcile_verdict_passthrough_cex :
    (reconcile [mkRec [] (some "MAYBE")]).verdict = some "MAYBE"
    ∧ "MAYBE" ∉ (["PASS", "NEEDS_WORK", "FAIL"] : List String)
    ∧ ciVerdict ⟨[], none⟩ = "UNKNOWN"
    ∧ ciVerdict ⟨[], none⟩ ≠ "NEEDS_WORK" := by
  refine ⟨?_, by decide, rfl, by decide⟩
  simp [reconcile, pickMin, mkRec]

/-- C7: reconcile of the empty list returns the empty record, with no
dimension entries and no verdict, by the early return; the function is
total, so no exception is possible. -/
theorem reconcile_empty :
    (∀ d, (reconcile ([] : List ScoreRecord)).get d = none)
    ∧ (reconcile ([] : List ScoreRecord)).verdict = none :=
  ⟨fun _ => rfl, rfl⟩

theorem reconcileDim_eq (evals : List ScoreRecord) (dim : String)
    (hne : scoresFor evals dim ≠ []) :
    reconcileDim evals dim
      = some ⟨round2 (listMean ((scoresFor evals dim).map DimEntry.score)),
              joinReasons (scoresFor evals dim)⟩ := by
  have h0 : (scoresFor evals dim).isEmpty = false := by
    cases h : scoresFor evals dim with
    | nil => exact absurd h hne
    | cons a l => rfl
  simp [reconcileDim, h0]

/-- C2, corrected: for a non-empty input list in which every record
contains the queried known dimension, the reconciled score for that
dimension is the arithmetic mean of the input scores rounded to two
decimal places; it therefore lies within 1/200 of the exact mean, but is
not the mean itself up to mere floating-point tolerance. -/
theorem reconcile_dim_rounded_mean (evals : List ScoreRecord) (dim : String)
    (h : evals ≠ []) (hd : dim ∈ dims)
    (hall : ∀ e ∈ evals, (e.get dim).isSome) :
    ∃ en, (reconcile evals).get dim = some en
      ∧ en.score = round2 (listMean ((scoresFor evals dim).map DimEntry.score))
      ∧ |en.score - listMean ((scoresFor evals dim).map DimEntry.score)| ≤ 1 / 200 := by
  have hne : scoresFor evals dim ≠ [] := by
    cases evals with
    | nil => exact absurd rfl h
    | cons e rest =>
      obtain ⟨en, hen⟩ := Option.isSome_iff_exists.mp (hall e (List.mem_cons_self e rest))
      simp [scoresFor, List.filterMap_cons, hen]
  rw [reconcile_get_eq evals h dim hd, reconcileDim_eq evals dim hne]
  exact ⟨_, rfl, rfl, round2_close _⟩

/-- Witness for C2 at two concrete records scoring 4/5 and 9/10 on the
overall dimension. -/
theorem reconcile_dim_rounded_mean_witness :
    ([mkRec [("overall", ⟨4/5, none⟩)] (some "PASS"),
      mkRec [("overall", ⟨9/10, none⟩)] (some "PASS")] ≠ [])
    ∧ "overall" ∈ dims
    ∧ (∀ e ∈ [mkRec [("overall", ⟨4/5, none⟩)] (some "PASS"),
              mkRec [("overall", ⟨9/10, none⟩)] (some "PASS")], (e.get "overall").isSome)
    ∧ (∃ en, (reconcile [mkRec [("overall", ⟨4/5, none⟩)] (some "PASS"),
                         mkRec [("overall", ⟨9/10, none⟩)] (some "PASS")]).get "overall"
          = some en
        ∧ en.score = round2 (listMean ((scoresFor
            [mkRec [("overall", ⟨4/5, none⟩)] (some "PASS"),
             mkRec [("overall", ⟨9/10, none⟩)] (some "PASS")] "overall").map DimEntry.score))
        ∧ |en.score - listMean ((scoresFor
            [mkRec [("overall", ⟨4/5, none⟩)] (some "PASS"),
             mkRec [("overall", ⟨9/10, none⟩)] (some "PASS")] "overall").map DimEntry.score)|
            ≤ 1 / 200) := by
  refine ⟨by simp, by decide, ?_, ?_⟩
  · intro e he
    rcases List.mem_cons.mp he with rfl | he2
    · simp [mkRec, List.lookup]
    · rcases List.mem_cons.mp he2 with rfl | he3
      · simp [mkRec, List.lookup]
      · simp at he3
  · refine reconcile_dim_rounded_mean _ _ (by simp) (by decide) ?_
    intro e he
    rcases List.mem_cons.mp he with rfl | he2
    · simp [mkRec, List.lookup]
    · rcases List.mem_cons.mp he2 with rfl | he3
      · simp [mkRec, List.lookup]
      · simp at he3

/-- Counterexample to C2 as stated: three records scoring 1, 1, 0 on the
overall dimension reconcile to 67/100 while the exact mean is 2/3; the
deviation 1/300 exceeds any floating-point tolerance (one millionth is
used as a generous bound). -/
theorem reconcile_dim_mean_cex :
    ((reconcile [mkRec [("overall", ⟨1, none⟩)] (some "PASS"),
                 mkRec [("overall", ⟨1, none⟩)] (some "PASS"),
                 mkRec [("overall", ⟨0, none⟩)] (some "PASS")]).get "overall").map
        OutEntry.score = some (67 / 100)
    ∧ listMean ((scoresFor
        [mkRec [("overall", ⟨1, none⟩)] (some "PASS"),
         mkRec [("overall", ⟨1, none⟩)] (some "PASS"),
         mkRec [("overall", ⟨0, none⟩)] (some "PASS")] "overall").map DimEntry.score) = 2 / 3
    ∧ (67 : ℚ) / 100 ≠ 2 / 3
    ∧ ¬(|(67 : ℚ) / 100 - 2 / 3| ≤ 1 / 1000000) := by
  refine ⟨?_, ?_, by norm_num, ?_⟩
  · simp [reconcile, dims, reconcileDim, scoresFor, mkRec, listMean, round2, List.lookup]
    rw [round_eq]
    norm_num
  · simp [scoresFor, mkRec, listMean, List.lookup]
    norm_num
  · rw [show (67 : ℚ) / 100 - 2 / 3 = 1 / 300 by norm_num]
    rw [abs_of_pos (by norm_num : (0 : ℚ) < 1 / 300)]
    norm_num

/-- C10: for a non-empty input list and a known dimension present in at
least one record, the reconciled score is the arithmetic mean rounded to
two decimal places, hence an integer multiple of 1/100 that differs from
the exact mean by at most 1/200. -/
theorem reconcile_dim_two_decimals (evals : List ScoreRecord) (dim : String)
    (h : evals ≠ []) (hd : dim ∈ dims)
    (hsome : ∃ e ∈ evals, (e.get dim).isSome) :
    ∃ en, (reconcile evals).get dim = some en
      ∧ en.score = round2 (listMean ((scoresFor evals dim).map DimEntry.score))
      ∧ (∃ k : ℤ, en.score = (k : ℚ) / 100)
      ∧ |en.score - listMean ((scoresFor evals dim).map DimEntry.score)| ≤ 1 / 200 := by
  have hne : scoresFor evals dim ≠ [] := by
    obtain ⟨e, he, hs⟩ := hsome
    obtain ⟨en, hen⟩ := Option.isSome_iff_exists.mp hs
    intro hnil
    have hmem : en ∈ scoresFor evals dim := by
      rw [scoresFor, List.mem_filterMap]
      exact ⟨e, he, hen⟩
    rw [hnil] at hmem
    simp at hmem
  rw [reconcile_get_eq evals h dim hd, reconcileDim_eq evals dim hne]
  exact ⟨_, rfl, rfl, ⟨round (100 * listMean ((scoresFor evals dim).map DimEntry.score)), rfl⟩,
    round2_close _⟩

/-- Witness for C10 at a single record scoring 333/1000 on the overall
dimension. -/
theorem reconcile_dim_two_decimals_witness :
    ([mkRec [("overall", ⟨333/1000, some "x"⟩)] (some "PASS")] ≠ [])
    ∧ "overall" ∈ dims
    ∧ (∃ e ∈ [mkRec [("overall", ⟨333/1000, some "x"⟩)] (some "PASS")],
        (e.get "overall").isSome)
    ∧ (∃ en, (reconcile [mkRec [("overall", ⟨333/1000, some "x"⟩)] (some "PASS")]).get
          "overall" = some en
        ∧ en.score = round2 (listMean ((scoresFor
            [mkRec [("overall", ⟨333/1000, some "x"⟩)] (some "PASS")] "overall").map
              DimEntry.score))
        ∧ (∃ k : ℤ, en.score = (k : ℚ) / 100)
        ∧ |en.score - listMean ((scoresFor
            [mkRec [("overall", ⟨333/1000, some "x"⟩)] (some "PASS")] "overall").map
              DimEntry.score)| ≤ 1 / 200) := by
  refine ⟨by simp, by decide, ?_, ?_⟩
  · exact ⟨mkRec [("overall", ⟨333/1000, some "x"⟩)] (some "PASS"), by simp,
      by simp [mkRec, List.lookup]⟩
  · refine reconcile_dim_two_decimals _ _ (by simp) (by decide) ?_
    exact ⟨mkRec [("overall", ⟨333/1000, some "x"⟩)] (some "PASS"), by simp,
      by simp [mkRec, List.lookup]⟩

/-- C5, corrected: reconciling a single record keeps the verdict unchanged
(when the verdict key is present), and keeps every known dimension score
unchanged provided the score is already a two-decimal value; in general
the single score is passed through round(mean of one value, 2). -/
theorem reconcile_single_record (r : ScoreRecord) (hv : r.verdict.isSome)
    (hs : ∀ d en, r.get d = some en → ∃ k : ℤ, en.score = (k : ℚ) / 100) :
    (∀ d ∈ dims, ((reconcile [r]).get d).map OutEntry.score = (r.get d).map DimEntry.score)
    ∧ (reconcile [r]).verdict = r.verdict := by
  constructor
  · intro d hd
    rw [reconcile_get_eq [r] (by simp) d hd]
    cases hrd : r.get d with
    | none => simp [reconcileDim, scoresFor, hrd]
    | some en =>
      have hsf : scoresFor [r] d = [en] := by simp [scoresFor, hrd]
      rw [reconcileDim_eq [r] d (by rw [hsf]; simp), hsf]
      obtain ⟨k, hk⟩ := hs d en hrd
      simp [listMean_single, hrd, hk, round2_int_div]
  · obtain ⟨v, hv2⟩ := Option.isSome_iff_exists.mp hv
    rw [reconcile_verdict_eq [r] (by simp)]
    simp [pickMin, hv2]

/-- Witness for C5 at a single record with a two-decimal overall score and
verdict PASS. -/
theorem reconcile_single_record_witness :
    ((mkRec [("overall", ⟨4/5, some "ok"⟩)] (some "PASS")).verdict.isSome)
    ∧ (∀ d en, (mkRec [("overall", ⟨4/5, some "ok"⟩)] (some "PASS")).get d = some en
        → ∃ k : ℤ, en.score = (k : ℚ) / 100)
    ∧ ((∀ d ∈ dims,
          ((reconcile [mkRec [("overall", ⟨4/5, some "ok"⟩)] (some "PASS")]).get d).map
              OutEntry.score
            = ((mkRec [("overall", ⟨4/5, some "ok"⟩)] (some "PASS")).get d).map
              DimEntry.score)
        ∧ (reconcile [mkRec [("overall", ⟨4/5, some "ok"⟩)] (some "PASS")]).verdict
            = (mkRec [("overall", ⟨4/5, some "ok"⟩)] (some "PASS")).verdict) := by
  have hs : ∀ d en, (mkRec [("overall", ⟨4/5, some "ok"⟩)] (some "PASS")).get d = some en
      → ∃ k : ℤ, en.score = (k : ℚ) / 100 := by
    intro d en h
    by_cases h1 : d = "overall"
    · subst h1
      simp [mkRec, List.lookup] at h
      exact ⟨80, by rw [← h]; norm_num⟩
    · simp [mkRec, List.lookup, beq_eq_false_iff_ne.mpr h1] at h
  exact ⟨rfl, hs, reconcile_single_record _ rfl hs⟩

/-- Counterexample to C5 as stated: a single record with overall score
333/1000 is not returned unchanged: the reconciled score is the rounded
value 33/100. -/
theorem reconcile_single_cex :
    ((reconcile [mkRec [("overall", ⟨333/1000, some "x"⟩)] (some "PASS")]).get
        "overall").map OutEntry.score = some (33 / 100)
    ∧ (33 : ℚ) / 100 ≠ 333 / 1000 := by
  refine ⟨?_, by norm_num⟩
  simp [reconcile, dims, reconcileDim, scoresFor, mkRec, listMean, round2, List.lookup]
  rw [round_eq]
  norm_num

theorem lookup_map_self {α : Type} (l : List String) (g : String → α) (k : String)
    (hk : k ∈ l) : (l.map (fun x => (x, g x))).lookup k = some (g k) := by
  induction l with
  | nil => simp at hk
  | cons x xs ih =>
    rcases List.mem_cons.mp hk with rfl | hk2
    · simp [List.lookup]
    · by_cases hkx : k = x
      · subst hkx
        simp [List.lookup]
      · simp only [List.map_cons, List.lookup, beq_eq_false_iff_ne.mpr hkx]
        exact ih hk2

/-- C3, corrected: the all-six-keys invariant holds of the defaulting loop
in ci_comment: for every decoded object and every key of the fixed
six-dimension list, the scores and reasons dicts contain the key, and a
key absent from the decoded object is synthesized with score 0 and empty
reason. (In iter_eval, parse_scores returns the decoded object as-is and
performs no such synthesis; see the counterexample.) -/
theorem ci_defaults_all_six (r : RecordJ) (k : String) (hk : k ∈ dims) :
    (ciScores r).lookup k = some (ciScore r k)
    ∧ (ciReasons r).lookup k = some (ciReason r k)
    ∧ (r.entries.lookup k = none → ciScore r k = 0 ∧ ciReason r k = "") := by
  refine ⟨lookup_map_self dims _ k hk, lookup_map_self dims _ k hk, ?_⟩
  intro h
  constructor
  · simp [ciScore, h]
  · simp [ciReason, h]

/-- Witness for C3 at the completeness key and a decoded object holding
only a verdict: the key is synthesized with score 0 and empty reason. -/
theorem ci_defaults_all_six_witness :
    ("completeness" ∈ dims)
    ∧ ((ciScores ⟨[], some "PASS"⟩).lookup "completeness"
          = some (ciScore ⟨[], some "PASS"⟩ "completeness")
        ∧ (ciReasons ⟨[], some "PASS"⟩).lookup "completeness"
          = some (ciReason ⟨[], some "PASS"⟩ "completeness")
        ∧ ((⟨[], some "PASS"⟩ : RecordJ).entries.lookup "completeness" = none
            → ciScore ⟨[], some "PASS"⟩ "completeness" = 0
              ∧ ciReason ⟨[], some "PASS"⟩ "completeness" = ""))
    ∧ ciScore ⟨[], some "PASS"⟩ "completeness" = 0
    ∧ ciReason ⟨[], some "PASS"⟩ "completeness" = "" :=
  ⟨by decide, ci_defaults_all_six ⟨[], some "PASS"⟩ "completeness" (by decide), rfl, rfl⟩

/-- Counterexample to C3 as stated for the iter_eval parsing step: a
response whose structured content decodes successfully to an object
holding only a verdict yields a score record with no completeness key at
all; parse_scores synthesizes nothing. -/
theorem parse_scores_no_synthesis_cex :
    parse_scores
        (fun s =>
          if s = Char.ofNat 123 :: ("\"verdict\": \"PASS\"".data ++ [Char.ofNat 125])
          then Except.ok ⟨[], some "PASS"⟩ else Except.error "unexpected")
        (Char.ofNat 123 :: ("\"verdict\": \"PASS\"".data ++ [Char.ofNat 125]))
      = Except.ok (⟨[], some "PASS"⟩ : RecordJ)
    ∧ (⟨[], some "PASS"⟩ : RecordJ).entries.lookup "completeness" = none
    ∧ "completeness" ∈ dims := by
  refine ⟨rfl, rfl, by decide⟩

/-- C6: reviewer failures are isolated. A transport error produces a child
span named after the reviewer carrying the error and an overall score of
0, and the empty dict is returned; a parse failure is treated the same
way; and in the model loop a failing reviewer contributes exactly that
child span while the collected results are exactly those of the other
reviewers, unchanged. -/
theorem run_eval_failure_isolated :
    (∀ (decode : List Char → Except String RecordJ) (m e : String),
      run_eval decode m (Except.error e)
        = (⟨"eval-" ++ m, SpanOutput.error e, [("overall", 0)]⟩, ⟨[], none⟩))
    ∧ (∀ (decode : List Char → Except String RecordJ) (m : String) (raw : List Char)
        (err : String), parse_scores decode raw = Except.error err →
      run_eval decode m (Except.ok raw)
        = (⟨"eval-" ++ m, SpanOutput.error err, [("overall", 0)]⟩, ⟨[], none⟩))
    ∧ (∀ (decode : List Char → Except String RecordJ)
        (pre post : List (String × Except String (List Char))) (m e : String),
      runAllModels decode (pre ++ (m, Except.error e) :: post)
        = ((runAllModels decode pre).1
            ++ ⟨"eval-" ++ m, SpanOutput.error e, [("overall", 0)]⟩
              :: (runAllModels decode post).1,
           (runAllModels decode pre).2 ++ (runAllModels decode post).2)) := by
  refine ⟨fun decode m e => rfl, ?_, ?_⟩
  · intro decode m raw err h
    simp [run_eval, h]
  · intro decode pre post m e
    induction pre with
    | nil => simp [runAllModels, run_eval, truthy]
    | cons p rest ih =>
      obtain ⟨mm, resp⟩ := p
      simp only [List.cons_append, runAllModels, ih]
      by_cases ht : truthy (run_eval decode mm resp).2
      · simp [ht, ih]
      · simp [ht, ih]

/-- Witness for C6 at a decoder that rejects every input: the parse
failure is converted into the error marker with overall score 0 and the
empty dict. -/
theorem run_eval_failure_isolated_witness :
    parse_scores (fun _ => Except.error "boom") [] = Except.error "boom"
    ∧ run_eval (fun _ => Except.error "boom") "gpt-4o-2024-11-20" (Except.ok [])
        = (⟨"eval-" ++ "gpt-4o-2024-11-20", SpanOutput.error "boom", [("overall", 0)]⟩,
           ⟨[], none⟩) :=
  ⟨rfl, run_eval_failure_isolated.2.1 _ "gpt-4o-2024-11-20" [] "boom" rfl⟩

/-- C8: the extraction strategy chain of parse_scores. When a decodable
fenced block labeled json is embedded between backtick-free prose, the
parsed record is the one obtained from the fenced content alone; and when
no fence occurs at all the whole text is used. -/
theorem parse_scores_fenced (decode : List Char → Except String RecordJ)
    (pre body post : List Char)
    (hpre : btick ∉ pre) (hbody : btick ∉ body) (hpost : btick ∉ post) :
    parse_scores decode (pre ++ fjson ++ body ++ fence ++ post) = parse_scores decode body
    ∧ (∀ t : List Char, containsSub fjson t = false → containsSub fence t = false
        → extract t = t) := by
  constructor
  · rw [parse_scores, parse_scores, extract_emb pre body post hpre hbody hpost,
      extract_btickFree body hbody]
  · intro t h1 h2
    simp [extract, h1, h2]

/-- Witness for C8 at a concrete response embedding a JSON object between
prose lines. -/
theorem parse_scores_fenced_witness :
    (btick ∉ "Here is the score:\n".data)
    ∧ (btick ∉ Char.ofNat 123 :: ("\"overall\": 0.8".data ++ [Char.ofNat 125]))
    ∧ (btick ∉ "\nDone.".data)
    ∧ parse_scores (fun _ => Except.ok ⟨[("overall", ⟨some (4/5), none⟩)], none⟩)
          ("Here is the score:\n".data ++ fjson
            ++ (Char.ofNat 123 :: ("\"overall\": 0.8".data ++ [Char.ofNat 125]))
            ++ fence ++ "\nDone.".data)
        = parse_scores (fun _ => Except.ok ⟨[("overall", ⟨some (4/5), none⟩)], none⟩)
            (Char.ofNat 123 :: ("\"overall\": 0.8".data ++ [Char.ofNat 125])) :=
  ⟨by decide, by decide, by decide,
    (parse_scores_fenced _ _ _ _ (by decide) (by decide) (by decide)).1⟩

theorem pyTake_length_le (s : String) (n : Nat) : (pyTake s n).length ≤ n := by
  show (s.data.take n).length ≤ n
  rw [List.length_take]
  omega

theorem pyTake_data_append (s : String) (n : Nat) :
    ∃ t, (pyTake s n).data ++ t = s.data :=
  ⟨s.data.drop n, List.take_append_drop n s.data⟩

theorem pyTakeLast_length_le (s : String) (n : Nat) : (pyTakeLast s n).length ≤ n := by
  show (s.data.drop (s.data.length - n)).length ≤ n
  rw [List.length_drop]
  omega

theorem pyTakeLast_data_append (s : String) (n : Nat) :
    ∃ t, t ++ (pyTakeLast s n).data = s.data :=
  ⟨s.data.take (s.data.length - n), List.take_append_drop _ s.data⟩

/-- C9: the request builder bounds the prompt regardless of upstream
payload size. The embedded diff stat is a prefix of the raw stat of at
most 2000 characters, the embedded diff is a prefix of the raw diff of at
most 12000 characters in iter_eval (at most 10000 in the ci_comment
prompt, whose gathered diff is cut at 15000), the embedded check log is a
suffix of the raw log of at most 3000 characters, the prompt embeds
exactly these truncated strings in fixed positions, and an absent check
log makes the prompt embed the literal placeholder instead. -/
theorem scoring_prompt_bounds (iter : Nat) (task rawStat rawDiff : String)
    (rawLog : Option String) (rawCi : String) :
    (diff_stat rawStat).length ≤ 2000
    ∧ (∃ t, (diff_stat rawStat).data ++ t = rawStat.data)
    ∧ (diff_content rawDiff).length ≤ 12000
    ∧ (∃ t, (diff_content rawDiff).data ++ t = rawDiff.data)
    ∧ (check_log rawLog).length ≤ 3000
    ∧ (∃ t, t ++ (check_log rawLog).data = (rawLog.getD "").data)
    ∧ (∃ A B C D, scoring_prompt iter task (diff_stat rawStat) (diff_content rawDiff)
          (check_log rawLog)
        = A ++ (diff_stat rawStat ++ (B ++ (diff_content rawDiff ++ (C ++
            ((if check_log rawLog = "" then "(no check output)" else check_log rawLog)
              ++ D))))))
    ∧ (rawLog = none → ∃ A B C D, scoring_prompt iter task (diff_stat rawStat)
          (diff_content rawDiff) (check_log rawLog)
        = A ++ (diff_stat rawStat ++ (B ++ (diff_content rawDiff ++ (C ++
            ("(no check output)" ++ D))))))
    ∧ (ci_diff_stat rawCi).length ≤ 2000
    ∧ (ci_prompt_diff rawCi).length ≤ 10000
    ∧ (∃ t, (ci_prompt_diff rawCi).data ++ t = rawCi.data) := by
  refine ⟨pyTake_length_le rawStat 2000, pyTake_data_append rawStat 2000,
    pyTake_length_le rawDiff 12000, pyTake_data_append rawDiff 12000, ?_, ?_,
    ⟨promptPre iter task, promptStat, promptDiff, promptTail, rfl⟩, ?_,
    pyTake_length_le rawCi 2000, pyTake_length_le (ci_diff_content rawCi) 10000, ?_⟩
  · cases rawLog with
    | none => simp [check_log]
    | some s => exact pyTakeLast_length_le s 3000
  · cases rawLog with
    | none => exact ⟨[], rfl⟩
    | some s => exact pyTakeLast_data_append s 3000
  · intro hlog
    subst hlog
    exact ⟨promptPre iter task, promptStat, promptDiff, promptTail,
      by simp [scoring_prompt, check_log]⟩
  · have hdata : (ci_prompt_diff rawCi).data = rawCi.data.take 10000 := by
      show (rawCi.data.take 15000).take 10000 = rawCi.data.take 10000
      rw [List.take_take]
      norm_num
    exact ⟨rawCi.data.drop 10000, by rw [hdata]; exact List.take_append_drop 10000 rawCi.data⟩

/-- Witness for C9: with an absent check log, the concrete prompt embeds
the literal placeholder. -/
theorem scoring_prompt_bounds_witness :
    ∃ A B C D, scoring_prompt 3 "task" (diff_stat "stat") (diff_content "diff")
        (check_log none)
      = A ++ (diff_stat "stat" ++ (B ++ (diff_content "diff" ++ (C ++
          ("(no check output)" ++ D))))) :=
  (scoring_prompt_bounds 3 "task" "stat" "diff" none "ci").2.2.2.2.2.2.2.1 rfl
